import Mathlib

/-!
Shallow embedding of the icon-extraction pipeline of
`src/html/icon_extractor.py` (functions `detect_icons`,
`detect_by_contours`, `detect_by_grid`, `detect_by_template_matching`,
`auto_detect_grid_size`), together with theorems checking the
natural-language specification against it.

Modelling conventions:
- a decoded raster is an `Img` (width, height, pixel samples);
- OpenCV's contour discovery (`cv2.threshold` + `cv2.findContours` +
  `cv2.boundingRect` + `cv2.contourArea`) is external library code, not
  repository code; it is modelled as an abstract deterministic function
  `Img → List Contour` where a `Contour` carries its minimal axis-aligned
  bounding rectangle and its (exact, rational) contour area;
- Python `int` arithmetic is `ℕ`/`ℤ` (exact, no overflow), `float`
  division in the fill-ratio test is exact division in `ℚ`;
- filesystem writes are modelled as updates to a map from filename to
  file content (here: the crop rectangle, which together with the fixed
  source image determines the bytes written);
- `detect_icons` returns `none` for the paths where the Python function
  returns `False` (unknown method) and `some outputs` where it returns
  `True`, `outputs` being the `(filename, crop-rectangle)` pairs written.
-/

namespace IconExtractor

/-- Region `(x, y, w, h)`: an axis-aligned rectangle in raster pixel
coordinates, as produced by `cv2.boundingRect` or the grid partitioner. -/
abbrev Region : Type := ℕ × ℕ × ℕ × ℕ

/-- Decoded raster: width, height and pixel samples (row-major,
origin top-left). Only the dimensions matter to the detection logic;
pixels matter to cropping. -/
structure Img where
  width : ℕ
  height : ℕ
  pixel : ℕ → ℕ → ℕ

/-- Abstract result of `cv2.findContours` on the binarized raster, for
one contour: its minimal axis-aligned bounding rectangle
(`cv2.boundingRect`, fields `x y w h`) and its enclosed foreground area
(`cv2.contourArea`, a float in Python, exact `ℚ` here). -/
structure Contour where
  x : ℕ
  y : ℕ
  w : ℕ
  h : ℕ
  area : ℚ

/-- Membership of a pixel coordinate in a region: `(px, py)` lies inside
the rectangle `(x, y, w, h)`. -/
def inRegion (r : Region) (px py : ℕ) : Prop :=
  r.1 ≤ px ∧ px < r.1 + r.2.2.1 ∧ r.2.1 ≤ py ∧ py < r.2.1 + r.2.2.2

instance (r : Region) (px py : ℕ) : Decidable (inRegion r px py) := by
  unfold inRegion; infer_instance

/-- Embedding of `detect_by_contours` (icon_extractor.py lines 80-101):
for each contour found in the binarized image, keep its bounding
rectangle when `min_size <= w <= max_size and min_size <= h <= max_size`,
`rect_area = w*h > 0` and `area / rect_area > threshold`. The contour
list is the output of the external `cv2.findContours`; the `padding`
parameter is accepted (as in the source) but unused. -/
def detect_by_contours (contours : List Contour) (min_size max_size : ℕ)
    (threshold : ℚ) (padding : ℕ) : List Region :=
  contours.filterMap fun c =>
    if min_size ≤ c.w ∧ c.w ≤ max_size ∧ min_size ≤ c.h ∧ c.h ≤ max_size then
      if 0 < c.w * c.h ∧ c.area / ((c.w * c.h : ℕ) : ℚ) > threshold then
        some (c.x, c.y, c.w, c.h)
      else none
    else none

/-- Candidate cell of `detect_by_grid` at a given `(row, col)`:
`(col*grid_size, row*grid_size, min(grid_size, width-x),
min(grid_size, height-y))` with `grid_size = min(width, height) // 4`. -/
def gridCellAt (width height row col : ℕ) : Region :=
  let grid_size := min width height / 4
  let x := col * grid_size
  let y := row * grid_size
  (x, y, min grid_size (width - x), min grid_size (height - y))

/-- The 16 candidate cells generated by the `row in range(4)` /
`col in range(4)` loops of `detect_by_grid`, in loop order. -/
def gridCells (width height : ℕ) : List Region :=
  (List.range 4).flatMap fun row =>
    (List.range 4).map fun col => gridCellAt width height row col

/-- Embedding of `detect_by_grid` (icon_extractor.py lines 103-121):
generate the 4×4 candidate cells and keep those with
`w >= min_size and h >= min_size`. The `max_size` and `padding`
parameters are accepted (as in the source) but unused. -/
def detect_by_grid (gray : Img) (min_size max_size : ℕ) (padding : ℕ) :
    List Region :=
  (gridCells gray.width gray.height).filter fun r =>
    decide (min_size ≤ r.2.2.1 ∧ min_size ≤ r.2.2.2)

/-- Embedding of `detect_by_template_matching` (icon_extractor.py lines
123-127): a placeholder that returns the empty list for every input. -/
def detect_by_template_matching (gray : Img) (min_size max_size : ℕ)
    (threshold : ℚ) (padding : ℕ) : List Region :=
  []

/-- Embedding of `auto_detect_grid_size` (icon_extractor.py lines
129-145): `none` models a failed `cv2.imread`; otherwise return
`(g, g)` for the first `g` in `[2, 3, 4, 5, 6]` dividing both width and
height, and `(4, 4)` when none does. -/
def auto_detect_grid_size (img : Option Img) : ℕ × ℕ :=
  match img with
  | none => (4, 4)
  | some im =>
    match ([2, 3, 4, 5, 6] : List ℕ).find?
        (fun g => im.width % g == 0 && im.height % g == 0) with
    | some g => (g, g)
    | none => (4, 4)

/-- Decimal digits, least significant first, computed with explicit
fuel so that the kernel can evaluate it (`digitsAux fuel n` is the
digit list of `n` whenever `n ≤ fuel`). -/
def digitsAux : ℕ → ℕ → List ℕ
  | 0, _ => []
  | _ + 1, 0 => []
  | fuel + 1, n + 1 => (n + 1) % 10 :: digitsAux fuel ((n + 1) / 10)

/-- Decimal digits of `n`, least significant first (empty for 0). -/
def decimalDigitsLE (n : ℕ) : List ℕ :=
  digitsAux n n

/-- Decimal digits of `n`, most significant first, left-padded with
zeros to width 3: the digit string produced by Python's `f"{n:03d}"`
for `n >= 0`. -/
def pad3Digits (n : ℕ) : List ℕ :=
  let ds := (decimalDigitsLE n).reverse
  List.replicate (3 - ds.length) 0 ++ ds

/-- ASCII character of a decimal digit. -/
def digitChar (d : ℕ) : Char :=
  Char.ofNat (48 + d)

/-- Output filename of the icon with (zero-based) index `i`:
`f"icon_{i:03d}.png"`. -/
def iconFilename (i : ℕ) : String :=
  "icon_" ++ String.mk ((pad3Digits i).map digitChar) ++ ".png"

/-- Crop rectangle `(x1, y1, x2, y2)` of a region (icon_extractor.py
lines 56-60): `x1 = max(0, x - padding)`, `y1 = max(0, y - padding)`,
`x2 = min(image.shape[1], x + w + padding)`,
`y2 = min(image.shape[0], y + h + padding)`. Computed in `ℤ` because
`x - padding` may be negative before the clamp. -/
def cropRect (width height padding : ℕ) (r : Region) : ℤ × ℤ × ℤ × ℤ :=
  (max 0 ((r.1 : ℤ) - padding),
   max 0 ((r.2.1 : ℤ) - padding),
   min (width : ℤ) ((r.1 : ℤ) + r.2.2.1 + padding),
   min (height : ℤ) ((r.2.1 : ℤ) + r.2.2.2 + padding))

/-- The export loop of `detect_icons` (icon_extractor.py lines 54-71):
`enumerate` the detected regions and emit, for each index `i` and region,
the pair of the filename `icon_{i:03d}.png` and the padded-and-clamped
crop rectangle sliced from the original image. -/
def export_icons (img : Img) (padding : ℕ) (icons : List Region) :
    List (String × (ℤ × ℤ × ℤ × ℤ)) :=
  icons.enum.map fun p => (iconFilename p.1, cropRect img.width img.height padding p.2)

/-- Embedding of the top level `detect_icons` (icon_extractor.py lines
15-78) after image decoding: dispatch on `method`, returning `none`
(the source returns `False`) for an unknown method, otherwise the
outputs written by the export loop. `fc` is the abstract deterministic
contour-discovery function (binarization + `cv2.findContours`). -/
def detect_icons (fc : Img → List Contour) (img : Img)
    (min_size max_size : ℕ) (threshold : ℚ) (padding : ℕ)
    (method : String) : Option (List (String × (ℤ × ℤ × ℤ × ℤ))) :=
  if method = "contour" then
    some (export_icons img padding
      (detect_by_contours (fc img) min_size max_size threshold padding))
  else if method = "grid" then
    some (export_icons img padding
      (detect_by_grid img min_size max_size padding))
  else if method = "template" then
    some (export_icons img padding
      (detect_by_template_matching img min_size max_size threshold padding))
  else none

/-- Filesystem model for the export loop: write each `(filename, data)`
pair in order into a map from filename to content, overwriting any
previous entry of the same name. -/
def writeFiles (d : String → Option (ℤ × ℤ × ℤ × ℤ))
    (outs : List (String × (ℤ × ℤ × ℤ × ℤ))) :
    String → Option (ℤ × ℤ × ℤ × ℤ) :=
  outs.foldl (fun acc e => fun s => if s = e.1 then some e.2 else acc s) d

/-! ### Helper lemmas -/

theorem ofDigits_digitsAux (fuel : ℕ) :
    ∀ n : ℕ, n ≤ fuel → Nat.ofDigits 10 (digitsAux fuel n) = n := by
  induction fuel with
  | zero =>
    intro n hn
    interval_cases n
    simp [digitsAux]
  | succ fuel ih =>
    intro n hn
    match n with
    | 0 => simp [digitsAux]
    | m + 1 =>
      have hdiv : (m + 1) / 10 < m + 1 := Nat.div_lt_self (Nat.succ_pos m) (by norm_num)
      rw [digitsAux, Nat.ofDigits_cons, ih ((m + 1) / 10) (by omega)]
      have hmod := Nat.div_add_mod (m + 1) 10
      omega

theorem digitsAux_lt (fuel : ℕ) :
    ∀ n : ℕ, ∀ d ∈ digitsAux fuel n, d < 10 := by
  induction fuel with
  | zero => intro n d hd; simp [digitsAux] at hd
  | succ fuel ih =>
    intro n d hd
    match n with
    | 0 => simp [digitsAux] at hd
    | m + 1 =>
      rw [digitsAux] at hd
      rcases List.mem_cons.mp hd with h | h
      · subst h; exact Nat.mod_lt _ (by norm_num)
      · exact ih _ _ h

theorem ofDigits_replicate_zero (k : ℕ) :
    Nat.ofDigits 10 (List.replicate k 0) = 0 := by
  induction k with
  | zero => simp
  | succ k ih => simp [List.replicate_succ, Nat.ofDigits_cons, ih]

theorem ofDigits_pad3 (n : ℕ) :
    Nat.ofDigits 10 (pad3Digits n).reverse = n := by
  simp only [pad3Digits, decimalDigitsLE, List.reverse_append,
    List.reverse_replicate, List.reverse_reverse]
  rw [Nat.ofDigits_append, ofDigits_digitsAux n n le_rfl,
    ofDigits_replicate_zero]
  simp

theorem pad3Digits_injective : Function.Injective pad3Digits := by
  intro a b h
  have ha := ofDigits_pad3 a
  rw [h, ofDigits_pad3 b] at ha
  exact ha.symm

theorem pad3Digits_lt (n : ℕ) : ∀ d ∈ pad3Digits n, d < 10 := by
  intro d hd
  simp only [pad3Digits, List.mem_append, List.mem_replicate,
    List.mem_reverse] at hd
  rcases hd with ⟨_, h0⟩ | h
  · omega
  · exact digitsAux_lt n n d h

theorem digitChar_inj_lt :
    ∀ d₁ : ℕ, d₁ < 10 → ∀ d₂ : ℕ, d₂ < 10 →
      digitChar d₁ = digitChar d₂ → d₁ = d₂ := by decide

theorem map_digitChar_inj :
    ∀ l₁ l₂ : List ℕ, (∀ d ∈ l₁, d < 10) → (∀ d ∈ l₂, d < 10) →
      l₁.map digitChar = l₂.map digitChar → l₁ = l₂ := by
  intro l₁
  induction l₁ with
  | nil =>
    intro l₂ _ _ h
    cases l₂ with
    | nil => rfl
    | cons b t => simp at h
  | cons a t ih =>
    intro l₂ h1 h2 h
    cases l₂ with
    | nil => simp at h
    | cons b t₂ =>
      simp only [List.map_cons, List.cons.injEq] at h
      have hab : a = b :=
        digitChar_inj_lt a (h1 a (by simp)) b (h2 b (by simp)) h.1
      have ht : t = t₂ :=
        ih t₂ (fun d hd => h1 d (by simp [hd])) (fun d hd => h2 d (by simp [hd])) h.2
      rw [hab, ht]

theorem iconFilename_injective : Function.Injective iconFilename := by
  intro a b h
  unfold iconFilename at h
  have h' := congrArg String.data h
  simp only [String.data_append] at h'
  have h2 := List.append_cancel_left (List.append_cancel_right h')
  exact pad3Digits_injective
    (map_digitChar_inj _ _ (pad3Digits_lt a) (pad3Digits_lt b) h2)

/-! ### Claims -/

/-- C2: for every accepted region `(x, y, w, h)` with positive `w`, `h`
lying within a `W × H` raster and every padding `p ≥ 0`, the crop
rectangle `(x1, y1, x2, y2)` computed by the cropper lies within raster
bounds, satisfies `w ≤ x2 - x1 ≤ w + 2p` and `h ≤ y2 - y1 ≤ h + 2p`,
and the resulting slice is non-empty. -/
theorem crop_clamped (W H p x y w h : ℕ) (x1 y1 x2 y2 : ℤ)
    (hc : cropRect W H p (x, y, w, h) = (x1, y1, x2, y2))
    (hx : x + w ≤ W) (hy : y + h ≤ H) (hw : 0 < w) (hh : 0 < h) :
    0 ≤ x1 ∧ 0 ≤ y1 ∧ x2 ≤ W ∧ y2 ≤ H ∧
    (w : ℤ) ≤ x2 - x1 ∧ x2 - x1 ≤ w + 2 * p ∧
    (h : ℤ) ≤ y2 - y1 ∧ y2 - y1 ≤ h + 2 * p ∧
    x1 < x2 ∧ y1 < y2 := by
  simp only [cropRect, Prod.mk.injEq] at hc
  obtain ⟨e1, e2, e3, e4⟩ := hc
  subst e1; subst e2; subst e3; subst e4
  omega

/-- Witness for C2 at the spec's scenario: region `(35, 35, 30, 30)` in
a 100 × 100 raster with padding 5 crops to `(30, 30, 70, 70)`. -/
theorem crop_clamped_witness :
    cropRect 100 100 5 (35, 35, 30, 30) = (30, 30, 70, 70) ∧
    35 + 30 ≤ 100 ∧ 0 < 30 ∧
    (0 ≤ (30 : ℤ) ∧ 0 ≤ (30 : ℤ) ∧ (70 : ℤ) ≤ 100 ∧ (70 : ℤ) ≤ 100 ∧
      (30 : ℤ) ≤ 70 - 30 ∧ (70 : ℤ) - 30 ≤ 30 + 2 * 5 ∧
      (30 : ℤ) ≤ 70 - 30 ∧ (70 : ℤ) - 30 ≤ 30 + 2 * 5 ∧
      (30 : ℤ) < 70 ∧ (30 : ℤ) < 70) :=
  ⟨by decide, by decide, by decide,
    crop_clamped 100 100 5 35 35 30 30 30 30 70 70 (by decide)
      (by decide) (by decide) (by decide) (by decide)⟩

/-- C7: for every configuration whose method is not `contour`, `grid`
or `template`, the top-level extraction aborts with overall failure
(`none`) and produces no extracted icon output. -/
theorem unknown_method_aborts (fc : Img → List Contour) (img : Img)
    (min_size max_size : ℕ) (threshold : ℚ) (padding : ℕ) (method : String)
    (h1 : method ≠ "contour") (h2 : method ≠ "grid")
    (h3 : method ≠ "template") :
    detect_icons fc img min_size max_size threshold padding method = none := by
  simp [detect_icons, h1, h2, h3]

/-- Witness for C7 at the concrete unknown method `"blob"`. -/
theorem unknown_method_aborts_witness :
    ("blob" ≠ "contour") ∧ ("blob" ≠ "grid") ∧ ("blob" ≠ "template") ∧
    detect_icons (fun _ => []) ⟨8, 8, fun _ _ => 0⟩ 20 200 (4 / 5) 5 "blob"
      = none :=
  ⟨by decide, by decide, by decide,
    unknown_method_aborts (fun _ => []) ⟨8, 8, fun _ _ => 0⟩ 20 200 (4 / 5) 5
      "blob" (by decide) (by decide) (by decide)⟩

/-- C9: `detect_by_template_matching` returns the empty list on every
input, and the top-level extraction with method `template` reports
success (`some`) with zero extracted icons rather than an error. -/
theorem template_silent_empty (gray : Img) (fc : Img → List Contour)
    (img : Img) (min_size max_size : ℕ) (threshold : ℚ) (padding : ℕ) :
    detect_by_template_matching gray min_size max_size threshold padding = [] ∧
    detect_icons fc img min_size max_size threshold padding "template"
      = some [] :=
  ⟨rfl, rfl⟩

/-- C10: the padding parameter has no influence on which regions
`detect_by_contours` and `detect_by_grid` detect. -/
theorem padding_no_detection_influence (contours : List Contour)
    (gray : Img) (min_size max_size : ℕ) (threshold : ℚ) (p1 p2 : ℕ) :
    detect_by_contours contours min_size max_size threshold p1 =
      detect_by_contours contours min_size max_size threshold p2 ∧
    detect_by_grid gray min_size max_size p1 =
      detect_by_grid gray min_size max_size p2 :=
  ⟨rfl, rfl⟩

theorem export_icons_map_fst (img : Img) (p : ℕ) (icons : List Region) :
    (export_icons img p icons).map Prod.fst =
      (List.range icons.length).map iconFilename := by
  simp only [export_icons, List.map_map, ← List.enum_map_fst]
  rfl

theorem export_icons_length (img : Img) (p : ℕ) (icons : List Region) :
    (export_icons img p icons).length = icons.length := by
  simp [export_icons]

theorem writeFiles_cons (d : String → Option (ℤ × ℤ × ℤ × ℤ))
    (e : String × (ℤ × ℤ × ℤ × ℤ)) (l : List (String × (ℤ × ℤ × ℤ × ℤ))) :
    writeFiles d (e :: l) =
      writeFiles (fun s => if s = e.1 then some e.2 else d s) l :=
  rfl

theorem writeFiles_congr :
    ∀ (outs : List (String × (ℤ × ℤ × ℤ × ℤ)))
      (d₁ d₂ : String → Option (ℤ × ℤ × ℤ × ℤ)),
      (∀ s, (∀ e ∈ outs, e.1 ≠ s) → d₁ s = d₂ s) →
      writeFiles d₁ outs = writeFiles d₂ outs := by
  intro outs
  induction outs with
  | nil =>
    intro d₁ d₂ h
    funext s
    exact h s (by simp)
  | cons e l ih =>
    intro d₁ d₂ h
    rw [writeFiles_cons, writeFiles_cons]
    apply ih
    intro s hs
    by_cases hse : s = e.1
    · simp [hse]
    · rw [if_neg hse, if_neg hse]
      refine h s ?_
      intro e' he'
      rcases List.mem_cons.mp he' with h' | h'
      · subst h'; exact fun heq => hse heq.symm
      · exact hs e' h'

theorem writeFiles_not_mem :
    ∀ (outs : List (String × (ℤ × ℤ × ℤ × ℤ)))
      (d : String → Option (ℤ × ℤ × ℤ × ℤ)) (s : String),
      (∀ e ∈ outs, e.1 ≠ s) → writeFiles d outs s = d s := by
  intro outs
  induction outs with
  | nil => intro d s _; rfl
  | cons e l ih =>
    intro d s h
    rw [writeFiles_cons, ih _ s (fun e' he' => h e' (by simp [he']))]
    rw [if_neg (fun heq => h e (by simp) heq.symm)]

theorem writeFiles_idem (d : String → Option (ℤ × ℤ × ℤ × ℤ))
    (outs : List (String × (ℤ × ℤ × ℤ × ℤ))) :
    writeFiles (writeFiles d outs) outs = writeFiles d outs :=
  writeFiles_congr outs _ _ (fun s hs => writeFiles_not_mem outs d s hs)

/-- C6: for every run in which the top-level extraction succeeds with
`K` accepted regions, the emitted filenames are exactly
`icon_000.png, …, icon_{K-1:03d}.png`, zero-based, in final acceptance
order, with no gaps or repeats, and not truncated beyond 3 digits. -/
theorem sequential_naming (fc : Img → List Contour) (img : Img)
    (min_size max_size : ℕ) (threshold : ℚ) (padding : ℕ) (method : String)
    (outs : List (String × (ℤ × ℤ × ℤ × ℤ)))
    (h : detect_icons fc img min_size max_size threshold padding method
      = some outs) :
    outs.map Prod.fst = (List.range outs.length).map iconFilename ∧
    (outs.map Prod.fst).Nodup ∧
    iconFilename 0 = "icon_000.png" ∧
    iconFilename 1000 = "icon_1000.png" := by
  have key : ∀ icons : List Region, outs = export_icons img padding icons →
      outs.map Prod.fst = (List.range outs.length).map iconFilename := by
    intro icons hi
    subst hi
    rw [export_icons_length, export_icons_map_fst]
  have hfst : outs.map Prod.fst = (List.range outs.length).map iconFilename := by
    unfold detect_icons at h
    split_ifs at h
    · exact key _ (Option.some.inj h).symm
    · exact key _ (Option.some.inj h).symm
    · exact key _ (Option.some.inj h).symm
  refine ⟨hfst, ?_, by decide, by decide⟩
  rw [hfst]
  exact List.Nodup.map iconFilename_injective (List.nodup_range _)

/-- Witness for C6, applying it to a successful run (method `template`,
zero accepted regions). -/
theorem sequential_naming_witness :
    detect_icons (fun _ => []) ⟨8, 8, fun _ _ => 0⟩ 20 200 (4 / 5) 5
      "template" = some [] ∧
    (([] : List (String × (ℤ × ℤ × ℤ × ℤ))).map Prod.fst =
        (List.range ([] : List (String × (ℤ × ℤ × ℤ × ℤ))).length).map
          iconFilename ∧
      (([] : List (String × (ℤ × ℤ × ℤ × ℤ))).map Prod.fst).Nodup ∧
      iconFilename 0 = "icon_000.png" ∧
      iconFilename 1000 = "icon_1000.png") :=
  ⟨rfl, sequential_naming (fun _ => []) ⟨8, 8, fun _ _ => 0⟩ 20 200 (4 / 5) 5
    "template" [] rfl⟩

/-- C8: for fixed decoded raster, contour oracle and configuration, the
top-level extraction is a pure function (two runs give the identical
result), and re-running its writes over an output directory that already
holds them leaves the directory unchanged (idempotent overwrite). -/
theorem deterministic_idempotent (fc : Img → List Contour) (img : Img)
    (min_size max_size : ℕ) (threshold : ℚ) (padding : ℕ) (method : String)
    (d : String → Option (ℤ × ℤ × ℤ × ℤ)) :
    detect_icons fc img min_size max_size threshold padding method =
      detect_icons fc img min_size max_size threshold padding method ∧
    ∀ outs,
      detect_icons fc img min_size max_size threshold padding method
        = some outs →
      writeFiles (writeFiles d outs) outs = writeFiles d outs :=
  ⟨rfl, fun outs _ => writeFiles_idem d outs⟩

/-- Witness for C8 at a concrete successful run. -/
theorem deterministic_idempotent_witness :
    detect_icons (fun _ => []) ⟨8, 8, fun _ _ => 0⟩ 20 200 (4 / 5) 5
      "template" = some [] ∧
    writeFiles (writeFiles (fun _ => none) []) [] =
      writeFiles (fun _ => none) [] :=
  ⟨rfl,
    (deterministic_idempotent (fun _ => []) ⟨8, 8, fun _ _ => 0⟩ 20 200
      (4 / 5) 5 "template" (fun _ => none)).2 [] rfl⟩

/-- C5: a region is in the output of `detect_by_grid` iff it is the cell
`(col*g, row*g, min g (W - col*g), min g (H - row*g))` for some
`row, col < 4` (with `g = min W H / 4`) and both its dimensions are at
least `min_size`; and `max_size` (like `fill_threshold`, which is not
even a parameter) plays no role in acceptance. -/
theorem grid_acceptance (gray : Img) (min_size max_size padding : ℕ)
    (r : Region) :
    (r ∈ detect_by_grid gray min_size max_size padding ↔
      ∃ row, row < 4 ∧ ∃ col, col < 4 ∧
        r = (col * (min gray.width gray.height / 4),
             row * (min gray.width gray.height / 4),
             min (min gray.width gray.height / 4)
               (gray.width - col * (min gray.width gray.height / 4)),
             min (min gray.width gray.height / 4)
               (gray.height - row * (min gray.width gray.height / 4))) ∧
        min_size ≤ r.2.2.1 ∧ min_size ≤ r.2.2.2) ∧
    ∀ max_size' : ℕ,
      detect_by_grid gray min_size max_size padding =
        detect_by_grid gray min_size max_size' padding := by
  refine ⟨?_, fun _ => rfl⟩
  simp only [detect_by_grid, gridCells, gridCellAt, List.mem_filter,
    List.mem_flatMap, List.mem_map, List.mem_range, decide_eq_true_eq]
  constructor
  · rintro ⟨⟨row, hrow, col, hcol, hr⟩, hsz⟩
    exact ⟨row, hrow, col, hcol, hr.symm, hsz⟩
  · rintro ⟨row, hrow, col, hcol, hr, hsz⟩
    exact ⟨⟨row, hrow, col, hcol, hr.symm⟩, hsz⟩

/-- C1: with positive size bounds and a fill threshold in `[0, 1]`, a
bounding rectangle appears in the output of `detect_by_contours` iff
some contour has it as its bounding rectangle, both its dimensions lie
in `[min_size, max_size]`, its area `w*h` is positive (a zero-area
rectangle is automatically rejected, so no division by zero occurs),
and the contour area divided by `w*h` strictly exceeds the threshold. -/
theorem contour_filter_mem (contours : List Contour)
    (min_size max_size : ℕ) (threshold : ℚ) (padding : ℕ)
    (hmin : 0 < min_size) (hmax : 0 < max_size)
    (ht0 : 0 ≤ threshold) (ht1 : threshold ≤ 1) (r : Region) :
    r ∈ detect_by_contours contours min_size max_size threshold padding ↔
      ∃ c ∈ contours, r = (c.x, c.y, c.w, c.h) ∧
        min_size ≤ c.w ∧ c.w ≤ max_size ∧ min_size ≤ c.h ∧ c.h ≤ max_size ∧
        0 < c.w * c.h ∧ threshold < c.area / ((c.w * c.h : ℕ) : ℚ) := by
  simp only [detect_by_contours, List.mem_filterMap]
  constructor
  · rintro ⟨c, hc, hfc⟩
    refine ⟨c, hc, ?_⟩
    by_cases h1 : min_size ≤ c.w ∧ c.w ≤ max_size ∧ min_size ≤ c.h ∧
        c.h ≤ max_size
    · rw [if_pos h1] at hfc
      by_cases h2 : 0 < c.w * c.h ∧
          c.area / ((c.w * c.h : ℕ) : ℚ) > threshold
      · rw [if_pos h2] at hfc
        exact ⟨(Option.some.inj hfc).symm, h1.1, h1.2.1, h1.2.2.1,
          h1.2.2.2, h2.1, h2.2⟩
      · rw [if_neg h2] at hfc
        exact absurd hfc (by simp)
    · rw [if_neg h1] at hfc
      exact absurd hfc (by simp)
  · rintro ⟨c, hc, hr, hw1, hw2, hh1, hh2, harea, hratio⟩
    refine ⟨c, hc, ?_⟩
    rw [if_pos ⟨hw1, hw2, hh1, hh2⟩, if_pos ⟨harea, hratio⟩, hr]

/-- Witness for C1: a single 30 × 30 contour of area 800 passes the
filter with `min_size = 20`, `max_size = 200`, threshold `4/5`
(`800/900 > 4/5`). -/
theorem contour_filter_mem_witness :
    0 < 20 ∧ 0 < 200 ∧ (0 : ℚ) ≤ 4 / 5 ∧ (4 : ℚ) / 5 ≤ 1 ∧
    ((0, 0, 30, 30) ∈
      detect_by_contours [⟨0, 0, 30, 30, 800⟩] 20 200 (4 / 5) 5) :=
  ⟨by norm_num, by norm_num, by norm_num, by norm_num,
    (contour_filter_mem [⟨0, 0, 30, 30, 800⟩] 20 200 (4 / 5) 5 (by norm_num)
        (by norm_num) (by norm_num) (by norm_num) (0, 0, 30, 30)).mpr
      ⟨⟨0, 0, 30, 30, 800⟩, by simp, rfl, by norm_num, by norm_num,
        by norm_num, by norm_num, by norm_num, by norm_num⟩⟩

theorem gridCellAt_eq (W H row col : ℕ) (hrow : row < 4) (hcol : col < 4) :
    gridCellAt W H row col =
      (col * (min W H / 4), row * (min W H / 4), min W H / 4, min W H / 4) := by
  have h4 : 4 * (min W H / 4) ≤ min W H := by omega
  have hcw : col * (min W H / 4) ≤ 3 * (min W H / 4) :=
    mul_le_mul_right' (by omega) _
  have hrh : row * (min W H / 4) ≤ 3 * (min W H / 4) :=
    mul_le_mul_right' (by omega) _
  unfold gridCellAt
  simp only [Prod.mk.injEq]
  refine ⟨trivial, trivial, ?_, ?_⟩ <;> omega

theorem mem_gridCells (W H g : ℕ) (hg : min W H / 4 = g) (r : Region) :
    r ∈ gridCells W H ↔ ∃ row, row < 4 ∧ ∃ col, col < 4 ∧
      r = (col * g, row * g, g, g) := by
  subst hg
  simp only [gridCells, List.mem_flatMap, List.mem_map, List.mem_range]
  constructor
  · rintro ⟨row, hrow, col, hcol, hr⟩
    exact ⟨row, hrow, col, hcol,
      hr.symm.trans (gridCellAt_eq W H row col hrow hcol)⟩
  · rintro ⟨row, hrow, col, hcol, hr⟩
    exact ⟨row, hrow, col, hcol,
      (gridCellAt_eq W H row col hrow hcol).trans hr.symm⟩

/-- C3 counterexample: on a 100 × 40 raster the 16 candidate cells of
the grid strategy do NOT tile the raster — the in-bounds point
`(50, 0)` lies in none of them (all cells lie inside
`[0, 40) × [0, 40)` because the single cell size is
`min(100, 40) // 4 = 10` on both axes). -/
theorem grid_tiling_counterexample :
    (gridCells 100 40).length = 16 ∧ 50 < 100 ∧ 0 < 40 ∧
    ∀ r ∈ gridCells 100 40, ¬ inRegion r 50 0 := by decide

/-- C3 amended: the grid strategy produces exactly 16 candidate cells,
each of size `g × g` with `g = min W H / 4` (edge cells are never
smaller), all lying within the raster and pairwise disjoint; their
union is exactly the square `[0, 4*g) × [0, 4*g)`, which tiles the
whole raster only when `4*g = W = H`. -/
theorem grid_cells_amended (W H : ℕ) :
    (gridCells W H).length = 16 ∧
    (∀ r ∈ gridCells W H, r.2.2.1 = min W H / 4 ∧ r.2.2.2 = min W H / 4) ∧
    (∀ r ∈ gridCells W H, r.1 + r.2.2.1 ≤ W ∧ r.2.1 + r.2.2.2 ≤ H) ∧
    (∀ px py, (∃ r ∈ gridCells W H, inRegion r px py) ↔
      px < 4 * (min W H / 4) ∧ py < 4 * (min W H / 4)) ∧
    (∀ r₁ ∈ gridCells W H, ∀ r₂ ∈ gridCells W H, r₁ ≠ r₂ →
      ∀ px py, inRegion r₁ px py → ¬ inRegion r₂ px py) := by
  obtain ⟨g, hg⟩ : ∃ g, min W H / 4 = g := ⟨_, rfl⟩
  have h4 : 4 * g ≤ min W H := by omega
  have hW : min W H ≤ W := min_le_left _ _
  have hH : min W H ≤ H := min_le_right _ _
  rw [hg]
  refine ⟨rfl, ?_, ?_, ?_, ?_⟩
  · intro r hr
    rw [mem_gridCells W H g hg] at hr
    obtain ⟨row, hrow, col, hcol, rfl⟩ := hr
    exact ⟨rfl, rfl⟩
  · intro r hr
    rw [mem_gridCells W H g hg] at hr
    obtain ⟨row, hrow, col, hcol, rfl⟩ := hr
    have hcw : col * g ≤ 3 * g := mul_le_mul_right' (by omega) _
    have hrh : row * g ≤ 3 * g := mul_le_mul_right' (by omega) _
    constructor
    · show col * g + g ≤ W
      omega
    · show row * g + g ≤ H
      omega
  · intro px py
    constructor
    · rintro ⟨r, hr, hin⟩
      rw [mem_gridCells W H g hg] at hr
      obtain ⟨row, hrow, col, hcol, rfl⟩ := hr
      have hin' : col * g ≤ px ∧ px < col * g + g ∧ row * g ≤ py ∧
          py < row * g + g := hin
      have hcw : col * g ≤ 3 * g := mul_le_mul_right' (by omega) _
      have hrh : row * g ≤ 3 * g := mul_le_mul_right' (by omega) _
      omega
    · rintro ⟨hpx, hpy⟩
      have hgpos : 0 < g := by omega
      have hpxd := Nat.div_add_mod px g
      have hpxm := Nat.mod_lt px hgpos
      have hpyd := Nat.div_add_mod py g
      have hpym := Nat.mod_lt py hgpos
      have epx : g * (px / g) = px / g * g := Nat.mul_comm _ _
      have epy : g * (py / g) = py / g * g := Nat.mul_comm _ _
      refine ⟨(px / g * g, py / g * g, g, g), ?_, ?_⟩
      · rw [mem_gridCells W H g hg]
        refine ⟨py / g, ?_, px / g, ?_, rfl⟩
        · by_contra hcon
          have h4le : 4 ≤ py / g := by omega
          have hmul : 4 * g ≤ py / g * g := mul_le_mul_right' h4le g
          omega
        · by_contra hcon
          have h4le : 4 ≤ px / g := by omega
          have hmul : 4 * g ≤ px / g * g := mul_le_mul_right' h4le g
          omega
      · show px / g * g ≤ px ∧ px < px / g * g + g ∧ py / g * g ≤ py ∧
          py < py / g * g + g
        omega
  · rintro r₁ h₁ r₂ h₂ hne px py hin1 hin2
    rw [mem_gridCells W H g hg] at h₁ h₂
    obtain ⟨row₁, hrow₁, col₁, hcol₁, rfl⟩ := h₁
    obtain ⟨row₂, hrow₂, col₂, hcol₂, rfl⟩ := h₂
    have hin1' : col₁ * g ≤ px ∧ px < col₁ * g + g ∧ row₁ * g ≤ py ∧
        py < row₁ * g + g := hin1
    have hin2' : col₂ * g ≤ px ∧ px < col₂ * g + g ∧ row₂ * g ≤ py ∧
        py < row₂ * g + g := hin2
    rcases Nat.eq_zero_or_pos g with hg0 | hgpos
    · omega
    · have e1 : px / g = col₁ :=
        Nat.div_eq_of_lt_le hin1'.1 (by rw [Nat.succ_mul]; omega)
      have e2 : px / g = col₂ :=
        Nat.div_eq_of_lt_le hin2'.1 (by rw [Nat.succ_mul]; omega)
      have e3 : py / g = row₁ :=
        Nat.div_eq_of_lt_le hin1'.2.2.1 (by rw [Nat.succ_mul]; omega)
      have e4 : py / g = row₂ :=
        Nat.div_eq_of_lt_le hin2'.2.2.1 (by rw [Nat.succ_mul]; omega)
      have hc : col₁ = col₂ := by omega
      have hr2 : row₁ = row₂ := by omega
      exact hne (by rw [hc, hr2])

/-- Witness for C3 amended on an 8 × 8 raster (cell size 2): two
distinct adjacent cells are disjoint at the pixel `(1, 1)`. -/
theorem grid_cells_amended_witness :
    ((0, 0, 2, 2) ∈ gridCells 8 8) ∧ ((2, 0, 2, 2) ∈ gridCells 8 8) ∧
    (((0, 0, 2, 2) : Region) ≠ (2, 0, 2, 2)) ∧ inRegion (0, 0, 2, 2) 1 1 ∧
    ¬ inRegion (2, 0, 2, 2) 1 1 :=
  ⟨by decide, by decide, by decide, by decide,
    (grid_cells_amended 8 8).2.2.2.2 (0, 0, 2, 2) (by decide) (2, 0, 2, 2)
      (by decide) (by decide) 1 1 (by decide)⟩

/-- C4 counterexample: for a 12 × 12 image both 6 and 2 (among others)
divide width and height, the largest preferred divisor is 6, yet
`auto_detect_grid_size` returns `(2, 2)` — the loop returns the FIRST
(smallest) divisor of the preferred set, not the largest. -/
theorem auto_grid_counterexample :
    auto_detect_grid_size (some ⟨12, 12, fun _ _ => 0⟩) = (2, 2) ∧
    (6 : ℕ) ∈ ([2, 3, 4, 5, 6] : List ℕ) ∧ 12 % 6 = 0 ∧
    ((2, 2) : ℕ × ℕ) ≠ (6, 6) :=
  ⟨rfl, by decide, by decide, by decide⟩

theorem find?_sorted_min (p : ℕ → Bool) :
    ∀ l : List ℕ, l.Pairwise (· < ·) → ∀ g ∈ l, p g = true →
      (∀ g' ∈ l, g' < g → p g' = false) → l.find? p = some g := by
  intro l
  induction l with
  | nil => intro _ g hg; simp at hg
  | cons a t ih =>
    intro hp g hg hpg hmin
    rcases List.mem_cons.mp hg with rfl | hgt
    · rw [List.find?_cons_of_pos _ hpg]
    · have halt : a < g := (List.pairwise_cons.mp hp).1 g hgt
      have hpa : p a = false := hmin a (by simp) halt
      rw [List.find?_cons_of_neg _ (by simp [hpa])]
      exact ih (List.pairwise_cons.mp hp).2 g hgt hpg
        (fun g' hg' hlt => hmin g' (by simp [hg']) hlt)

/-- C4 amended: `auto_detect_grid_size` returns `(g, g)` where `g` is
the SMALLEST element of `{2, 3, 4, 5, 6}` dividing both width and
height evenly, and `(4, 4)` when no element of that set divides both
(or when the image cannot be loaded). -/
theorem auto_grid_amended :
    (∀ im : Img, ∀ g ∈ ([2, 3, 4, 5, 6] : List ℕ),
      im.width % g = 0 → im.height % g = 0 →
      (∀ g' ∈ ([2, 3, 4, 5, 6] : List ℕ), g' < g →
        ¬(im.width % g' = 0 ∧ im.height % g' = 0)) →
      auto_detect_grid_size (some im) = (g, g)) ∧
    (∀ im : Img,
      (∀ g ∈ ([2, 3, 4, 5, 6] : List ℕ),
        ¬(im.width % g = 0 ∧ im.height % g = 0)) →
      auto_detect_grid_size (some im) = (4, 4)) ∧
    auto_detect_grid_size none = (4, 4) := by
  refine ⟨?_, ?_, rfl⟩
  · intro im g hg hw hh hmin
    have hfind : ([2, 3, 4, 5, 6] : List ℕ).find?
        (fun k => im.width % k == 0 && im.height % k == 0) = some g := by
      apply find?_sorted_min _ _ (by decide) g hg
      · simp [hw, hh]
      · intro g' hg' hlt
        have hng := hmin g' hg' hlt
        rw [← Bool.not_eq_true]
        intro hcontra
        simp only [Bool.and_eq_true, beq_iff_eq] at hcontra
        exact hng hcontra
    simp [auto_detect_grid_size, hfind]
  · intro im h
    have hfind : ([2, 3, 4, 5, 6] : List ℕ).find?
        (fun k => im.width % k == 0 && im.height % k == 0) = none := by
      rw [List.find?_eq_none]
      intro x hx hpx
      simp only [Bool.and_eq_true, beq_iff_eq] at hpx
      exact h x hx hpx
    simp [auto_detect_grid_size, hfind]

/-- Witness for C4 amended at a 12 × 12 image: 2 is the smallest
preferred divisor and is returned. -/
theorem auto_grid_amended_witness :
    ((2 : ℕ) ∈ ([2, 3, 4, 5, 6] : List ℕ)) ∧ 12 % 2 = 0 ∧
    auto_detect_grid_size (some ⟨12, 12, fun _ _ => 0⟩) = (2, 2) :=
  ⟨by decide, by decide,
    auto_grid_amended.1 ⟨12, 12, fun _ _ => 0⟩ 2 (by decide) (by decide)
      (by decide) (by decide)⟩

end IconExtractor
